import Mathlib

/-!
# Verification of the SoftwareAnalyzer classification pipeline

Shallow embedding of the rule-based classification engine of the
SoftwareAnalyzer repository (`src/server.js` and its extended variant with
disposition enrichment).  JavaScript strings are modelled as Lean `String`
(`toLowerCase` and `trim` modelled character-wise on the underlying
character list, accurate on the range the rules operate on); JavaScript numbers appearing as device
counts are integers in practice and are modelled as `Int`; nullable /
optional values are modelled as `Option`; the `RegExp` object with the `'i'`
flag is modelled by a small regular-expression engine over the anchor-free
subset of the JavaScript syntax (literals, escapes, character classes, `.`,
alternation, grouping and the `*`/`+`/`?`/`{m,n}` quantifiers), where the
`i` flag is realised exactly as ECMAScript prescribes: every character
comparison goes through case canonicalisation, here lower-casing of both the
pattern literals (at compile time) and the input (at match time).  Patterns
outside the modelled subset are treated as failing to compile, which the
engine under verification maps to "never matches".
-/

/-- A raw device-count cell as it reaches the analysis engine: a JavaScript
number, a string, or absent (`undefined`). -/
inductive DevCount where
  | num (n : Int)
  | str (s : String)
  | missing
deriving DecidableEq, Repr

/-- Numeric value of a decimal digit, `none` otherwise. -/
def digitVal? (c : Char) : Option Nat :=
  if '0' ≤ c ∧ c ≤ '9' then some (c.toNat - '0'.toNat) else none

/-- Numeric value of a hexadecimal digit, `none` otherwise. -/
def hexVal? (c : Char) : Option Nat :=
  if '0' ≤ c ∧ c ≤ '9' then some (c.toNat - '0'.toNat)
  else if 'a' ≤ c ∧ c ≤ 'f' then some (c.toNat - 'a'.toNat + 10)
  else if 'A' ≤ c ∧ c ≤ 'F' then some (c.toNat - 'A'.toNat + 10)
  else none

/-- Accumulate the longest prefix of digits (in the given base, via the given
digit reader), as JavaScript `parseInt` does after the prefix checks. -/
def takeDigits (dv : Char → Option Nat) (base : Nat) : List Char → Nat → Nat
  | [], acc => acc
  | c :: cs, acc =>
    match dv c with
    | some v => takeDigits dv base cs (acc * base + v)
    | none => acc

/-- The JavaScript whitespace characters relevant here (`trim` and the
numeric conversions skip them): space, tab, line terminators, vertical tab,
form feed and no-break space. -/
def jsIsWhitespace (c : Char) : Bool :=
  c == ' ' || c == '\t' || c == '\n' || c == '\r' || c == '\x0b' || c == '\x0c'
    || c == Char.ofNat 0xA0

/-- Model of `String.prototype.trim`. -/
def jsTrim (s : String) : String :=
  ⟨((s.data.dropWhile jsIsWhitespace).reverse.dropWhile jsIsWhitespace).reverse⟩

/-- Model of `String.prototype.toLowerCase` (character-wise lower-casing;
exact on the ASCII names and patterns this system handles). -/
def jsToLower (s : String) : String := ⟨s.data.map Char.toLower⟩

/-- Model of JavaScript `parseInt(x)` (radix unspecified): skip leading
whitespace, read an optional sign, detect a `0x`/`0X` prefix for base 16,
then read the longest digit prefix; `none` models `NaN` (no digits). -/
def jsParseInt (s : String) : Option Int :=
  let cs := s.data.dropWhile jsIsWhitespace
  let (neg, cs) :=
    match cs with
    | '-' :: rest => (true, rest)
    | '+' :: rest => (false, rest)
    | _ => (false, cs)
  let hex : Bool :=
    match cs with
    | '0' :: 'x' :: _ => true
    | '0' :: 'X' :: _ => true
    | _ => false
  let cs := if hex then cs.drop 2 else cs
  let dv := if hex then hexVal? else digitVal?
  let base := match cs with
    | c :: _ => if (dv c).isSome then some (takeDigits dv (if hex then 16 else 10) cs 0) else none
    | [] => none
  match base with
  | some n => some (if neg then -(n : Int) else (n : Int))
  | none => none

/-- `parseInt(e.deviceCount) || 1` from the `includedArray` construction:
`parseInt` of a number is the number itself, of a string its parsed prefix,
of `undefined` it is `NaN`; the `|| 1` fallback turns `NaN` and `0` into 1. -/
def parseIntOr1 : DevCount → Int
  | .num n => if n = 0 then 1 else n
  | .str s =>
    match jsParseInt s with
    | some k => if k = 0 then 1 else k
    | none => 1
  | .missing => 1

/-- Model of `deviceCount || 0` followed by numeric coercion, as used by the
unmapped-list sort comparator.  A number is itself; `undefined` and the empty
string are falsy and become 0; a non-empty string goes through `ToNumber`
(modelled for integer literals: optional sign plus decimal digits, or a
`0x` hexadecimal literal, surrounded by whitespace); `none` models `NaN`. -/
def devKey : DevCount → Option Int
  | .num n => some n
  | .missing => some 0
  | .str s =>
    if s = "" then some 0
    else
      let cs := (s.data.dropWhile jsIsWhitespace).reverse.dropWhile jsIsWhitespace |>.reverse
      match cs with
      | [] => some 0
      | '0' :: 'x' :: rest =>
        if rest ≠ [] ∧ rest.all (fun c => (hexVal? c).isSome) then
          some ((takeDigits hexVal? 16 rest 0 : Nat) : Int)
        else none
      | '0' :: 'X' :: rest =>
        if rest ≠ [] ∧ rest.all (fun c => (hexVal? c).isSome) then
          some ((takeDigits hexVal? 16 rest 0 : Nat) : Int)
        else none
      | _ =>
        let (neg, ds) :=
          match cs with
          | '-' :: rest => (true, rest)
          | '+' :: rest => (false, rest)
          | _ => (false, cs)
        if ds ≠ [] ∧ ds.all (fun c => (digitVal? c).isSome) then
          let n : Int := (takeDigits digitVal? 10 ds 0 : Nat)
          some (if neg then -n else n)
        else none

/-- `needle` occurs as a contiguous sublist of `hay`; model of
`String.prototype.includes` on the underlying character lists. -/
def listInfixOf (needle : List Char) : List Char → Bool
  | [] => needle.isEmpty
  | c :: cs => needle.isPrefixOf (c :: cs) || listInfixOf needle cs

/-- Model of `a.includes(b)`. -/
def jsIncludes (a b : String) : Bool := listInfixOf b.data a.data

/-- Model of `a.startsWith(b)`. -/
def jsStartsWith (a b : String) : Bool := b.data.isPrefixOf a.data

/-- Model of `a.endsWith(b)`. -/
def jsEndsWith (a b : String) : Bool := b.data.isSuffixOf a.data

/-! ## Regular-expression engine (model of `new RegExp(pattern, 'i').test(name)`) -/

/-- Regular expressions after compilation.  `cls neg cs` is a character class
(the character set `cs`, complemented when `neg` is true); all literal
characters are stored lower-cased, realising the `i` flag's canonicalisation
on the pattern side. -/
inductive RE where
  | fail
  | eps
  | cls (neg : Bool) (cs : List Char)
  | cat (r₁ r₂ : RE)
  | alt (r₁ r₂ : RE)
  | star (r : RE)
deriving DecidableEq, Repr

/-- The regular expression accepts the empty string. -/
def RE.nullable : RE → Bool
  | .fail => false
  | .eps => true
  | .cls _ _ => false
  | .cat a b => a.nullable && b.nullable
  | .alt a b => a.nullable || b.nullable
  | .star _ => true

/-- A character class accepts a (canonicalised) character. -/
def RE.clsMatches (neg : Bool) (cs : List Char) (c : Char) : Bool :=
  if neg then !(cs.contains c) else cs.contains c

/-- Brzozowski derivative with respect to one (canonicalised) character. -/
def RE.deriv : RE → Char → RE
  | .fail, _ => .fail
  | .eps, _ => .fail
  | .cls neg cs, c => if RE.clsMatches neg cs c then .eps else .fail
  | .cat a b, c =>
    if a.nullable then .alt (.cat (a.deriv c) b) (b.deriv c)
    else .cat (a.deriv c) b
  | .alt a b, c => .alt (a.deriv c) (b.deriv c)
  | .star r, c => .cat (r.deriv c) (.star r)

/-- Some prefix of `s` is accepted by `r`. -/
def RE.matchesPrefix (r : RE) : List Char → Bool
  | [] => r.nullable
  | c :: cs => r.nullable || (r.deriv c).matchesPrefix cs

/-- Some contiguous substring of `s` is accepted by `r`; this is the
(unanchored) search performed by `RegExp.prototype.test`. -/
def RE.search (r : RE) : List Char → Bool
  | [] => r.nullable
  | c :: cs => r.matchesPrefix (c :: cs) || r.search cs

/-- `test` of a compiled case-insensitive regular expression: ECMAScript's
`Canonicalize` is applied to every input character before comparison, which
(together with the compile-time canonicalisation of pattern literals) is
realised by lower-casing the whole input. -/
def reTest (r : RE) (name : String) : Bool := r.search (jsToLower name).data

/-! ### Compiling the JavaScript pattern syntax -/

/-- `n`-fold concatenation of a regular expression. -/
def RE.repExact : Nat → RE → RE
  | 0, _ => .eps
  | n + 1, r => .cat r (RE.repExact n r)

/-- Concatenation of `n` optional copies of a regular expression. -/
def RE.repUpTo : Nat → RE → RE
  | 0, _ => .eps
  | n + 1, r => .cat (.alt r .eps) (RE.repUpTo n r)

/-- Expansion of the characters matched by `\d`. -/
def digitChars : List Char := "0123456789".data

/-- Expansion of the characters matched by `\w`. -/
def wordChars : List Char := "abcdefghijklmnopqrstuvwxyz0123456789_".data

/-- Expansion of the characters matched by `\s` (the common whitespace
characters; the rules in this system only use ASCII whitespace). -/
def spaceChars : List Char := [' ', '\t', '\n', '\r', '\x0b', '\x0c']

/-- The line terminators *not* matched by `.`. -/
def dotExcluded : List Char := ['\n', '\r']

/-- A class escape such as `\d` / `\w` / `\s` and the negated forms, as the
pair (negated?, character set); `none` when the escaped character is not a
class escape. -/
def classEscape (c : Char) : Option (Bool × List Char) :=
  match c with
  | 'd' => some (false, digitChars)
  | 'D' => some (true, digitChars)
  | 'w' => some (false, wordChars)
  | 'W' => some (true, wordChars)
  | 's' => some (false, spaceChars)
  | 'S' => some (true, spaceChars)
  | _ => none

/-- A single-character escape `\c` for a non-class escape; `none` when the
escape is not supported by the model (e.g. `\b`, back-references).  Literal
results are canonicalised (lower-cased) for the `i` flag. -/
def charEscape (c : Char) : Option Char :=
  match c with
  | 'n' => some '\n'
  | 'r' => some '\r'
  | 't' => some '\t'
  | 'f' => some '\x0c'
  | 'v' => some '\x0b'
  | '0' => some (Char.ofNat 0)
  | _ =>
    if c.isAlphanum then none
    else some c.toLower


/-- Expand a character range `c-d` to the list of its (canonicalised)
characters; `none` when the range bounds are out of order. -/
def rangeChars (c d : Char) : Option (List Char) :=
  if c.toNat ≤ d.toNat then
    some ((List.range (d.toNat - c.toNat + 1)).map
      (fun i => (Char.ofNat (c.toNat + i)).toLower))
  else none

mutual

/-- Parse the items of a character class body up to the closing `]`:
characters, ranges `a-z` and class escapes, accumulating the (canonicalised)
character set.  Returns the set and the input after the `]`. -/
def parseClassBody (fuel : Nat) (acc : List Char) (s : List Char) :
    Option (List Char × List Char) :=
  match fuel with
  | 0 => none
  | fuel + 1 =>
    match s with
    | ']' :: rest => some (acc, rest)
    | '\\' :: e :: rest =>
      (match classEscape e with
       | some (false, cs) => parseClassBody fuel (acc ++ cs) rest
       | some (true, _) => none
       | none =>
         match charEscape e with
         | some c => parseClassRange fuel acc c rest
         | none => none)
    | c :: rest => parseClassRange fuel acc c.toLower rest
    | [] => none

/-- Continue a class body after a first character `c`, handling a possible
range `c-d` (a `-` directly before the closing `]` is a literal). -/
def parseClassRange (fuel : Nat) (acc : List Char) (c : Char) (s : List Char) :
    Option (List Char × List Char) :=
  match fuel with
  | 0 => none
  | fuel + 1 =>
    match s with
    | '-' :: ']' :: rest => some (acc ++ [c, '-'], rest)
    | '-' :: '\\' :: e :: rest =>
      (match charEscape e with
       | some d =>
         match rangeChars c d with
         | some cs => parseClassBody fuel (acc ++ cs) rest
         | none => none
       | none => none)
    | '-' :: d :: rest =>
      (match rangeChars c d.toLower with
       | some cs => parseClassBody fuel (acc ++ cs) rest
       | none => none)
    | rest => parseClassBody fuel (acc ++ [c]) rest

end

/-- Parse a decimal number (for `{m,n}` quantifiers). -/
def parseNumberAux (acc : Nat) : List Char → Nat × List Char
  | c :: rest =>
    (match digitVal? c with
     | some v => parseNumberAux (acc * 10 + v) rest
     | none => (acc, c :: rest))
  | [] => (acc, [])

/-- Parse a nonempty decimal number; `none` when the input does not start
with a digit. -/
def parseNumber : List Char → Option (Nat × List Char)
  | c :: rest =>
    (match digitVal? c with
     | some v => some (parseNumberAux v rest)
     | none => none)
  | [] => none

/-- Result of reading a `{...}` quantifier: a successful quantifier, a hard
syntax error (`{m,n}` with `m > n`), or not a quantifier at all (in which
case the `{` is a literal character, as in JavaScript). -/
inductive BraceResult where
  | ok (r : RE) (rest : List Char)
  | invalid
  | notQuantifier
deriving DecidableEq, Repr

/-- Apply a `{m}` / `{m,}` / `{m,n}` quantifier body (the input starts just
after the `{`). -/
def parseBraces (r : RE) (s : List Char) : BraceResult :=
  match parseNumber s with
  | none => .notQuantifier
  | some (m, rest) =>
    match rest with
    | '}' :: rest' => .ok (RE.repExact m r) rest'
    | ',' :: '}' :: rest' => .ok (.cat (RE.repExact m r) (.star r)) rest'
    | ',' :: rest' =>
      (match parseNumber rest' with
       | some (n, '}' :: rest'') =>
         if m ≤ n then .ok (.cat (RE.repExact m r) (RE.repUpTo (n - m) r)) rest''
         else .invalid
       | _ => .notQuantifier)
    | _ => .notQuantifier

/-- Parse an optional quantifier (`*`, `+`, `?`, `{...}`), each optionally
followed by a laziness marker `?` (laziness does not change the boolean
result of `test`).  A `{` that does not open a valid quantifier is a literal
character, as in JavaScript. -/
def parsePostfix (r : RE) : List Char → Option (RE × List Char)
  | '*' :: '?' :: rest => some (.star r, rest)
  | '*' :: rest => some (.star r, rest)
  | '+' :: '?' :: rest => some (.cat r (.star r), rest)
  | '+' :: rest => some (.cat r (.star r), rest)
  | '?' :: '?' :: rest => some (.alt r .eps, rest)
  | '?' :: rest => some (.alt r .eps, rest)
  | '{' :: rest =>
    (match parseBraces r rest with
     | .ok r' ('?' :: rest') => some (r', rest')
     | .ok r' rest' => some (r', rest')
     | .invalid => none
     | .notQuantifier => some (.cat r (.cls false ['{']), rest))
  | rest => some (r, rest)

mutual

/-- Parse a full alternation `seq | seq | ...` (stopping at `)` or the end). -/
def parseAlt (fuel : Nat) (s : List Char) : Option (RE × List Char) :=
  match fuel with
  | 0 => none
  | fuel + 1 =>
    match parseSeq fuel .eps s with
    | none => none
    | some (r, rest) =>
      match rest with
      | '|' :: rest' =>
        (match parseAlt fuel rest' with
         | some (r', rest'') => some (.alt r r', rest'')
         | none => none)
      | _ => some (r, rest)

/-- Parse a concatenation of quantified atoms, accumulating on the left. -/
def parseSeq (fuel : Nat) (acc : RE) (s : List Char) : Option (RE × List Char) :=
  match fuel with
  | 0 => none
  | fuel + 1 =>
    match s with
    | [] => some (acc, [])
    | ')' :: _ => some (acc, s)
    | '|' :: _ => some (acc, s)
    | _ =>
      match parseAtom fuel s with
      | none => none
      | some (r, rest) =>
        match parsePostfix r rest with
        | none => none
        | some (r', rest') => parseSeq fuel (.cat acc r') rest'

/-- Parse one atom: a literal character, `.`, an escape, a character class,
or a parenthesised group (capturing or `(?:`).  Anchors, look-arounds and
back-references are outside the modelled subset and fail to compile. -/
def parseAtom (fuel : Nat) (s : List Char) : Option (RE × List Char) :=
  match fuel with
  | 0 => none
  | fuel + 1 =>
    match s with
    | [] => none
    | '(' :: '?' :: ':' :: rest =>
      (match parseAlt fuel rest with
       | some (r, ')' :: rest') => some (r, rest')
       | _ => none)
    | '(' :: '?' :: _ => none
    | '(' :: rest =>
      (match parseAlt fuel rest with
       | some (r, ')' :: rest') => some (r, rest')
       | _ => none)
    | '.' :: rest => some (.cls true dotExcluded, rest)
    | '[' :: '^' :: rest =>
      (match parseClassBody fuel [] rest with
       | some (cs, rest') => some (.cls true cs, rest')
       | none => none)
    | '[' :: rest =>
      (match parseClassBody fuel [] rest with
       | some (cs, rest') => some (.cls false cs, rest')
       | none => none)
    | ['\\'] => none
    | '\\' :: e :: rest =>
      (match classEscape e with
       | some (neg, cs) => some (.cls neg cs, rest)
       | none =>
         match charEscape e with
         | some c => some (.cls false [c], rest)
         | none => none)
    | c :: rest =>
      if c = '*' ∨ c = '+' ∨ c = '?' ∨ c = '^' ∨ c = '$' then none
      else some (.cls false [c.toLower], rest)

end

/-- Model of `new RegExp(pattern, 'i')`: compile the pattern, `none` on a
pattern that is invalid (or outside the modelled subset). -/
def compileRegexI (pattern : String) : Option RE :=
  match parseAlt (4 * (pattern.length + 1)) pattern.data with
  | some (r, []) => some r
  | _ => none

/-! ## Rules and pattern matchers (`shouldExclude`, `findMapping`) -/

/-- A row of `exclusion_rules` as used by the analyzer (the active rules, in
stored `id` order).  `NOT NULL` columns are plain strings. -/
structure ExclusionRule where
  pattern_type : String
  pattern_value : String
  category : String
  reason : String
deriving DecidableEq, Repr

/-- A row of `software_mappings` as used by the analyzer (the active rules,
in stored `id` order).  Nullable text columns are modelled as `String` with
`""` standing for SQL `NULL` (both are falsy under the `||` defaults the
code applies). -/
structure MappingRule where
  pattern_type : String
  original_pattern : String
  canonical_name : String
  category : String
  deployment_type : String
  description : String
deriving DecidableEq, Repr

/-- The `console.warn` message emitted for an invalid regex pattern. -/
def invalidRegexWarning (pattern : String) : String :=
  "Invalid regex pattern: " ++ pattern

/-- The `switch (rule.pattern_type)` of `shouldExclude`, for one rule against
one (already trimmed) name; also returns the warnings emitted.  An
unrecognised `pattern_type` leaves `matches = false`. -/
def exclusionMatchW (rule : ExclusionRule) (name : String) : Bool × List String :=
  let pattern := rule.pattern_value
  if rule.pattern_type = "exact" then (jsToLower name == jsToLower pattern, [])
  else if rule.pattern_type = "contains" then (jsIncludes (jsToLower name) (jsToLower pattern), [])
  else if rule.pattern_type = "startswith" then (jsStartsWith (jsToLower name) (jsToLower pattern), [])
  else if rule.pattern_type = "endswith" then (jsEndsWith (jsToLower name) (jsToLower pattern), [])
  else if rule.pattern_type = "regex" then
    match compileRegexI pattern with
    | some re => (reTest re name, [])
    | none => (false, [invalidRegexWarning pattern])
  else (false, [])

/-- Whether one exclusion rule matches one (already trimmed) name. -/
def exclusionMatches (rule : ExclusionRule) (name : String) : Bool :=
  (exclusionMatchW rule name).1

/-- The `switch (rule.pattern_type)` of `findMapping`: as for exclusions but
without an `endswith` case. -/
def mappingMatchW (rule : MappingRule) (name : String) : Bool × List String :=
  let pattern := rule.original_pattern
  if rule.pattern_type = "exact" then (jsToLower name == jsToLower pattern, [])
  else if rule.pattern_type = "contains" then (jsIncludes (jsToLower name) (jsToLower pattern), [])
  else if rule.pattern_type = "startswith" then (jsStartsWith (jsToLower name) (jsToLower pattern), [])
  else if rule.pattern_type = "regex" then
    match compileRegexI pattern with
    | some re => (reTest re name, [])
    | none => (false, [invalidRegexWarning pattern])
  else (false, [])

/-- Whether one mapping rule matches one (already trimmed) name. -/
def mappingMatches (rule : MappingRule) (name : String) : Bool :=
  (mappingMatchW rule name).1

/-- The `for (const rule of this.exclusionRules)` loop of `shouldExclude`:
first matching rule wins; warnings of all rules evaluated on the way are
collected in order. -/
def exclusionLoop (name : String) : List ExclusionRule → Option ExclusionRule × List String
  | [] => (none, [])
  | r :: rest =>
    let (m, w) := exclusionMatchW r name
    if m then (some r, w)
    else
      let (res, ws) := exclusionLoop name rest
      (res, w ++ ws)

/-- `SoftwareAnalyzer.shouldExclude` with its warnings: trims the name, then
scans the exclusion rules in stored order.  `some rule` models the
`{excluded: true, rule}` result, `none` models `{excluded: false}`. -/
def shouldExcludeW (rules : List ExclusionRule) (softwareName : String) :
    Option ExclusionRule × List String :=
  exclusionLoop (jsTrim softwareName) rules

/-- `SoftwareAnalyzer.shouldExclude`, result only. -/
def shouldExclude (rules : List ExclusionRule) (softwareName : String) :
    Option ExclusionRule :=
  (shouldExcludeW rules softwareName).1

/-- The `for (const rule of this.mappingRules)` loop of `findMapping`. -/
def mappingLoop (name : String) : List MappingRule → Option MappingRule × List String
  | [] => (none, [])
  | r :: rest =>
    let (m, w) := mappingMatchW r name
    if m then (some r, w)
    else
      let (res, ws) := mappingLoop name rest
      (res, w ++ ws)

/-- `SoftwareAnalyzer.findMapping` with its warnings: trims the name, then
scans the mapping rules in stored order; `none` models the `null` result. -/
def findMappingW (rules : List MappingRule) (softwareName : String) :
    Option MappingRule × List String :=
  mappingLoop (jsTrim softwareName) rules

/-- `SoftwareAnalyzer.findMapping`, result only. -/
def findMapping (rules : List MappingRule) (softwareName : String) :
    Option MappingRule :=
  (findMappingW rules softwareName).1

/-! ## The analysis loop (`SoftwareAnalyzer.analyze`) -/

/-- One element of the `softwareList` handed to `analyze` (produced by the
spreadsheet-parsing boundary): `name` may be absent (`undefined`). -/
structure InventoryItem where
  name : Option String
  publisher : String
  deviceCount : DevCount
deriving DecidableEq, Repr

/-- An entry as recorded in an aggregate's `originalEntries` and in the
`unmapped` bucket: `{name, publisher, deviceCount}`. -/
structure OrigEntry where
  name : String
  publisher : String
  deviceCount : DevCount
deriving DecidableEq, Repr

/-- An element of the `excluded` bucket:
`{name, reason: rule.category, ruleReason: rule.reason}`. -/
structure ExcludedEntry where
  name : String
  reason : String
  ruleReason : String
deriving DecidableEq, Repr

/-- A value of the `results.included` map: canonical name, the metadata
seeded when the aggregate was created, and the contributing entries. -/
structure Aggregate where
  canonicalName : String
  category : String
  deploymentType : String
  description : String
  originalEntries : List OrigEntry
deriving DecidableEq, Repr

/-- The `results` object of `analyze`.  The JavaScript `Map` iterates in
insertion order, so `included` is an insertion-ordered list keyed (uniquely)
by `canonicalName`. -/
structure AnalyzeResults where
  included : List Aggregate
  excluded : List ExcludedEntry
  unmapped : List OrigEntry
deriving DecidableEq, Repr

/-- JavaScript `x || d` for strings, with `""` also standing for `null`. -/
def jsOrDefault (s d : String) : String := if s = "" then d else s

/-- Lines 176–190 of `analyze`: look up `results.included` by the rule's
canonical name; create the aggregate (seeded with the rule's metadata and
the `|| 'Uncategorized'` / `|| 'Desktop'` / `|| ''` defaults) if absent,
then push the entry onto its `originalEntries`. -/
def addToAggregates (m : MappingRule) (e : OrigEntry) : List Aggregate → List Aggregate
  | [] =>
    [{ canonicalName := m.canonical_name,
       category := jsOrDefault m.category "Uncategorized",
       deploymentType := jsOrDefault m.deployment_type "Desktop",
       description := jsOrDefault m.description "",
       originalEntries := [e] }]
  | a :: rest =>
    if a.canonicalName = m.canonical_name then
      { a with originalEntries := a.originalEntries ++ [e] } :: rest
    else
      a :: addToAggregates m e rest

/-- One iteration of the `for (const item of softwareList)` loop of
`analyze`: skip a missing/blank name, check exclusion first, then mapping,
else unmapped. -/
def analyzeStep (ex : List ExclusionRule) (mp : List MappingRule)
    (acc : AnalyzeResults) (item : InventoryItem) : AnalyzeResults :=
  match item.name with
  | none => acc
  | some raw =>
    let name := jsTrim raw
    if name = "" then acc
    else
      match shouldExclude ex name with
      | some rule =>
        { acc with excluded := acc.excluded ++ [⟨name, rule.category, rule.reason⟩] }
      | none =>
        match findMapping mp name with
        | some m =>
          { acc with included :=
              addToAggregates m ⟨name, item.publisher, item.deviceCount⟩ acc.included }
        | none =>
          { acc with unmapped := acc.unmapped ++ [⟨name, item.publisher, item.deviceCount⟩] }

/-- `SoftwareAnalyzer.analyze` over an already-loaded rule snapshot. -/
def analyze (ex : List ExclusionRule) (mp : List MappingRule)
    (softwareList : List InventoryItem) : AnalyzeResults :=
  softwareList.foldl (analyzeStep ex mp) ⟨[], [], []⟩

/-! ## Post-processing: `includedArray`, disposition enrichment, sorting -/

/-- The `reduce` computing `totalDevices`:
`originalEntries.reduce((sum, e) => sum + (parseInt(e.deviceCount) || 1), 0)`. -/
def totalDevicesOf (entries : List OrigEntry) : Int :=
  entries.foldl (fun sum e => sum + parseIntOr1 e.deviceCount) 0

/-- An element of `includedArray`: the aggregate plus the derived
`originalCount` and `totalDevices`. -/
structure IncludedOut where
  canonicalName : String
  category : String
  deploymentType : String
  description : String
  originalEntries : List OrigEntry
  originalCount : Nat
  totalDevices : Int
deriving DecidableEq, Repr

/-- `includedArray`: `Array.from(results.included.values()).map(...)`. -/
def includedArray (res : AnalyzeResults) : List IncludedOut :=
  res.included.map (fun a =>
    { canonicalName := a.canonicalName,
      category := a.category,
      deploymentType := a.deploymentType,
      description := a.description,
      originalEntries := a.originalEntries,
      originalCount := a.originalEntries.length,
      totalDevices := totalDevicesOf a.originalEntries })

/-- A row of the disposition bulk-fetch (`disposition_mappings` LEFT JOIN
`approved_software`); nullable columns are `Option`. -/
structure DispRow where
  canonical_name : String
  disposition : String
  approved_software_id : Option Int
  replacement_name : Option String
  notes : Option String
deriving DecidableEq, Repr

/-- A value of the `dispositionMap` built during enrichment. -/
structure DispInfo where
  disposition : String
  replacementId : Option Int
  replacementName : Option String
  notes : Option String
deriving DecidableEq, Repr

/-- The `dispositionMap` entry created for a fresh canonical name:
`{ disposition: 'pending', replacementId: null, replacementName: null, notes: null }`. -/
def pendingInfo : DispInfo :=
  { disposition := "pending", replacementId := none, replacementName := none, notes := none }

/-- `Map.prototype.set` on an association list (replace or append). -/
def mapSet (m : List (String × DispInfo)) (k : String) (v : DispInfo) :
    List (String × DispInfo) :=
  match m with
  | [] => [(k, v)]
  | (k', v') :: rest => if k' = k then (k, v) :: rest else (k', v') :: mapSet rest k v

/-- `Map.prototype.get` on an association list. -/
def mapGet (m : List (String × DispInfo)) (k : String) : Option DispInfo :=
  (m.find? (fun p => p.1 = k)).map (·.2)

/-- An element of `includedWithDisposition`. -/
structure EnrichedItem where
  canonicalName : String
  category : String
  deploymentType : String
  description : String
  originalEntries : List OrigEntry
  originalCount : Nat
  totalDevices : Int
  disposition : String
  replacementId : Option Int
  replacementName : Option String
  dispositionNotes : Option String
deriving DecidableEq, Repr

/-- JavaScript `x?.f || 'd'` for an optional string field: a missing map
entry (`undefined`) and an empty string are both falsy. -/
def jsFieldOrDefault (o : Option String) (d : String) : String :=
  match o with
  | some s => if s = "" then d else s
  | none => d

/-- JavaScript `x?.f || null` for a nullable integer field (`0` is falsy and
also becomes `null`). -/
def jsIntOrNull (o : Option Int) : Option Int :=
  match o with
  | some v => if v = 0 then none else some v
  | none => none

/-- JavaScript `x?.f || null` for a nullable string field (`""` is falsy and
becomes `null`). -/
def jsStrOrNull (o : Option String) : Option String :=
  match o with
  | some s => if s = "" then none else some s
  | none => none

/-- The `dispositionMap` as populated from the bulk fetch: each fetched row
is `set` into the map; a failed fetch (`none`, the store unavailable) leaves
the map empty (the `catch` only warns). -/
def fetchMap : Option (List DispRow) → List (String × DispInfo)
  | some rows =>
    rows.foldl (fun m r => mapSet m r.canonical_name
      { disposition := r.disposition,
        replacementId := r.approved_software_id,
        replacementName := r.replacement_name,
        notes := r.notes }) []
  | none => []

/-- The loop inserting a `'pending'` record for each missing canonical name:
the map entry is set only when the insert succeeds (`insertOk`); a failed
insert is swallowed and the map is left unchanged. -/
def pendingInserts (insertOk : String → Bool) (names : List String)
    (m : List (String × DispInfo)) : List (String × DispInfo) :=
  names.foldl (fun m n => if insertOk n then mapSet m n pendingInfo else m) m

/-- The merge of one included aggregate with the disposition map, with the
`|| 'pending'` / `|| null` fallbacks. -/
def enrichItem (m1 : List (String × DispInfo)) (item : IncludedOut) : EnrichedItem :=
  let d := mapGet m1 item.canonicalName
  { canonicalName := item.canonicalName,
    category := item.category,
    deploymentType := item.deploymentType,
    description := item.description,
    originalEntries := item.originalEntries,
    originalCount := item.originalCount,
    totalDevices := item.totalDevices,
    disposition := jsFieldOrDefault (d.map (·.disposition)) "pending",
    replacementId := jsIntOrNull (d.bind (·.replacementId)),
    replacementName := jsStrOrNull (d.bind (·.replacementName)),
    dispositionNotes := jsStrOrNull (d.bind (·.notes)) }

/-- Lines 307–356 of the enrichment variant of `/api/analyze`: bulk-fetch the
disposition rows (the surrounding `try`/`catch` makes a store failure leave
the map empty, modelled by `fetched = none`); create a `'pending'` record for
each canonical name not in the map, recording it in the map only when the
insert succeeds (`insertOk`; an insert failure is swallowed); then merge the
map into the included array with `|| 'pending'` / `|| null` fallbacks. -/
def enrich (fetched : Option (List DispRow)) (insertOk : String → Bool)
    (included : List IncludedOut) : List EnrichedItem :=
  let m0 := fetchMap fetched
  let missing := (included.map (·.canonicalName)).filter (fun n => (mapGet m0 n).isNone)
  let m1 := pendingInserts insertOk missing m0
  included.map (enrichItem m1)

/-! ## The sorted response (`res.json({...})`) -/

/-- Stable insertion of `x` into `l` keeping every `y` with `r y x` (i.e.
comparator result `≤ 0`) before `x`; later tied elements land after earlier
ones, which is exactly the stability guarantee of `Array.prototype.sort`. -/
def jsInsert (r : α → α → Bool) (x : α) : List α → List α
  | [] => [x]
  | y :: ys => if r y x then y :: jsInsert r x ys else x :: y :: ys

/-- Model of `Array.prototype.sort` with a consistent comparator: the unique
stable sort with respect to `r a b = "comparator(a, b) ≤ 0"`. -/
def jsSort (r : α → α → Bool) (l : List α) : List α :=
  l.foldl (fun acc x => jsInsert r x acc) []

/-- Lexicographic (code-point) order on strings: the executable stand-in for
`localeCompare(...) ≤ 0` (locale collation agrees with code-point order on
the names this system compares). -/
def lexLe : List Char → List Char → Bool
  | [], _ => true
  | _ :: _, [] => false
  | a :: as, b :: bs =>
    if a.toNat < b.toNat then true
    else if b.toNat < a.toNat then false
    else lexLe as bs

/-- `a.localeCompare(b) ≤ 0`, modelled as code-point order. -/
def strLe (a b : String) : Bool := lexLe a.data b.data

/-- The included-list comparator `(a, b) => a.canonicalName.localeCompare(b.canonicalName)`
as a "stays before" test. -/
def includedBefore (a b : EnrichedItem) : Bool := strLe a.canonicalName b.canonicalName

/-- The unmapped-list comparator
`(a, b) => (b.deviceCount || 0) - (a.deviceCount || 0)` as a "stays before"
test: `true` iff the comparator result is `≤ 0` or `NaN` (ECMAScript treats
a `NaN` comparator result as `0`). -/
def unmappedBefore (a b : OrigEntry) : Bool :=
  match devKey a.deviceCount, devKey b.deviceCount with
  | some x, some y => decide (y ≤ x)
  | _, _ => true

/-- The `summary` object of the response. -/
structure ApiSummary where
  totalInput : Nat
  totalOutput : Nat
  excluded : Nat
  unmapped : Nat
  pendingDisposition : Nat
deriving DecidableEq, Repr

/-- The body of the `/api/analyze` JSON response (the classification part). -/
structure ApiResponse where
  summary : ApiSummary
  included : List EnrichedItem
  excluded : List ExcludedEntry
  unmapped : List OrigEntry
deriving DecidableEq, Repr

/-- The `/api/analyze` handler from the run of `analyze` to the response:
`includedArray`, disposition enrichment, and the two sorts. -/
def apiAnalyzeResponse (ex : List ExclusionRule) (mp : List MappingRule)
    (fetched : Option (List DispRow)) (insertOk : String → Bool)
    (softwareList : List InventoryItem) : ApiResponse :=
  let res := analyze ex mp softwareList
  let inc := includedArray res
  let encd := enrich fetched insertOk inc
  { summary :=
      { totalInput := softwareList.length,
        totalOutput := encd.length,
        excluded := res.excluded.length,
        unmapped := res.unmapped.length,
        pendingDisposition := (encd.filter (fun i => i.disposition == "pending")).length },
    included := jsSort includedBefore encd,
    excluded := res.excluded,
    unmapped := jsSort unmappedBefore res.unmapped }

/-! ## Vocabulary for the statements -/

/-- The effective name of an input item: `some` of the trimmed name when the
item survives the `if (!name) continue` guard, `none` when the name is
missing or blank. -/
def entryName? (item : InventoryItem) : Option String :=
  match item.name with
  | none => none
  | some raw => if jsTrim raw = "" then none else some (jsTrim raw)

/-- The excluded-bucket record an item produces, if any. -/
def classifyExcluded (ex : List ExclusionRule) (item : InventoryItem) :
    Option ExcludedEntry :=
  match entryName? item with
  | none => none
  | some n => (shouldExclude ex n).map (fun r => ⟨n, r.category, r.reason⟩)

/-- The aggregate-contributing entry an item produces, if any. -/
def classifyContrib (ex : List ExclusionRule) (mp : List MappingRule)
    (item : InventoryItem) : Option OrigEntry :=
  match entryName? item with
  | none => none
  | some n =>
    match shouldExclude ex n with
    | some _ => none
    | none => (findMapping mp n).map (fun _ => ⟨n, item.publisher, item.deviceCount⟩)

/-- The unmapped-bucket record an item produces, if any. -/
def classifyUnmapped (ex : List ExclusionRule) (mp : List MappingRule)
    (item : InventoryItem) : Option OrigEntry :=
  match entryName? item with
  | none => none
  | some n =>
    match shouldExclude ex n with
    | some _ => none
    | none =>
      match findMapping mp n with
      | some _ => none
      | none => some ⟨n, item.publisher, item.deviceCount⟩

/-- All contributing entries of all aggregates, in aggregate order. -/
def flatEntries (aggs : List Aggregate) : List OrigEntry :=
  (aggs.map Aggregate.originalEntries).flatten

/-- The frozen metadata of an aggregate (everything but the entries). -/
def metaOf (a : Aggregate) : String × String × String × String :=
  (a.canonicalName, a.category, a.deploymentType, a.description)

/-- The metadata an aggregate is seeded with when rule `m` first creates it. -/
def seedMetaOf (m : MappingRule) : String × String × String × String :=
  (m.canonical_name, jsOrDefault m.category "Uncategorized",
   jsOrDefault m.deployment_type "Desktop", jsOrDefault m.description "")

/-- Exactly one of three alternatives holds. -/
def ExactlyOne (a b c : Prop) : Prop :=
  (a ∧ ¬b ∧ ¬c) ∨ (¬a ∧ b ∧ ¬c) ∨ (¬a ∧ ¬b ∧ c)

/-- Consecutive elements of the list are related by the boolean relation. -/
def SortedB (r : α → α → Bool) (l : List α) : Prop :=
  l.Pairwise (fun a b => r a b = true)

/-- Modelled from the spec wording of claim C6, for comparison with the
code: "totalDevices equals the sum of the contributing entries' deviceCount
values, where an entry whose deviceCount is missing or non-numeric
contributes exactly 1" — i.e. the numeric value itself whenever `parseInt`
yields one (including 0), and 1 only for missing/non-numeric. -/
def specDeviceContribution : DevCount → Int
  | .num n => n
  | .str s =>
    match jsParseInt s with
    | some k => k
    | none => 1
  | .missing => 1

/-! ## The partition of the input (C1) -/

theorem analyzeStep_excluded (ex : List ExclusionRule) (mp : List MappingRule)
    (acc : AnalyzeResults) (item : InventoryItem) :
    (analyzeStep ex mp acc item).excluded
      = acc.excluded ++ (classifyExcluded ex item).toList := by
  rcases hnm : item.name with _ | raw
  · simp [analyzeStep, classifyExcluded, entryName?, hnm]
  · by_cases ht : jsTrim raw = ""
    · simp [analyzeStep, classifyExcluded, entryName?, hnm, ht]
    · rcases hse : shouldExclude ex (jsTrim raw) with _ | r
      · rcases hfm : findMapping mp (jsTrim raw) with _ | m <;>
          simp [analyzeStep, classifyExcluded, entryName?, hnm, ht, hse, hfm]
      · simp [analyzeStep, classifyExcluded, entryName?, hnm, ht, hse]

theorem analyzeStep_unmapped (ex : List ExclusionRule) (mp : List MappingRule)
    (acc : AnalyzeResults) (item : InventoryItem) :
    (analyzeStep ex mp acc item).unmapped
      = acc.unmapped ++ (classifyUnmapped ex mp item).toList := by
  rcases hnm : item.name with _ | raw
  · simp [analyzeStep, classifyUnmapped, entryName?, hnm]
  · by_cases ht : jsTrim raw = ""
    · simp [analyzeStep, classifyUnmapped, entryName?, hnm, ht]
    · rcases hse : shouldExclude ex (jsTrim raw) with _ | r
      · rcases hfm : findMapping mp (jsTrim raw) with _ | m <;>
          simp [analyzeStep, classifyUnmapped, entryName?, hnm, ht, hse, hfm]
      · simp [analyzeStep, classifyUnmapped, entryName?, hnm, ht, hse]

theorem flatEntries_addToAggregates (m : MappingRule) (e : OrigEntry)
    (aggs : List Aggregate) :
    List.Perm (flatEntries (addToAggregates m e aggs)) (flatEntries aggs ++ [e]) := by
  induction aggs with
  | nil => simp [flatEntries, addToAggregates]
  | cons a rest ih =>
    by_cases h : a.canonicalName = m.canonical_name
    · simp only [addToAggregates, if_pos h, flatEntries, List.map_cons, List.flatten_cons,
        List.append_assoc]
      exact List.Perm.append_left _ List.perm_append_comm
    · simp only [addToAggregates, if_neg h, flatEntries, List.map_cons, List.flatten_cons,
        List.append_assoc]
      exact List.Perm.append_left _ ih

theorem analyzeStep_flat (ex : List ExclusionRule) (mp : List MappingRule)
    (acc : AnalyzeResults) (item : InventoryItem) :
    List.Perm (flatEntries (analyzeStep ex mp acc item).included)
      (flatEntries acc.included ++ (classifyContrib ex mp item).toList) := by
  rcases hnm : item.name with _ | raw
  · simp [analyzeStep, classifyContrib, entryName?, hnm]
  · by_cases ht : jsTrim raw = ""
    · simp [analyzeStep, classifyContrib, entryName?, hnm, ht]
    · rcases hse : shouldExclude ex (jsTrim raw) with _ | r
      · rcases hfm : findMapping mp (jsTrim raw) with _ | m
        · simp [analyzeStep, classifyContrib, entryName?, hnm, ht, hse, hfm]
        · simpa [analyzeStep, classifyContrib, entryName?, hnm, ht, hse, hfm] using
            flatEntries_addToAggregates m ⟨jsTrim raw, item.publisher, item.deviceCount⟩
              acc.included
      · simp [analyzeStep, classifyContrib, entryName?, hnm, ht, hse]

theorem analyze_loop (ex : List ExclusionRule) (mp : List MappingRule) :
    ∀ (items : List InventoryItem) (acc : AnalyzeResults),
      (items.foldl (analyzeStep ex mp) acc).excluded
          = acc.excluded ++ items.filterMap (classifyExcluded ex)
      ∧ (items.foldl (analyzeStep ex mp) acc).unmapped
          = acc.unmapped ++ items.filterMap (classifyUnmapped ex mp)
      ∧ List.Perm (flatEntries (items.foldl (analyzeStep ex mp) acc).included)
          (flatEntries acc.included ++ items.filterMap (classifyContrib ex mp)) := by
  intro items
  induction items with
  | nil => intro acc; simp
  | cons item rest ih =>
    intro acc
    obtain ⟨ihe, ihu, ihf⟩ := ih (analyzeStep ex mp acc item)
    refine ⟨?_, ?_, ?_⟩
    · rw [List.foldl_cons, ihe, analyzeStep_excluded]
      rcases h : classifyExcluded ex item with _ | v <;>
        simp [List.filterMap_cons, h]
    · rw [List.foldl_cons, ihu, analyzeStep_unmapped]
      rcases h : classifyUnmapped ex mp item with _ | v <;>
        simp [List.filterMap_cons, h]
    · rw [List.foldl_cons]
      refine ihf.trans ?_
      refine (List.Perm.append_right _ (analyzeStep_flat ex mp acc item)).trans ?_
      rcases h : classifyContrib ex mp item with _ | v <;>
        simp [List.filterMap_cons, h, List.append_assoc]

/-- **C1.** Every input entry with a non-empty trimmed name lands in exactly
one of the three buckets of `analyze` — excluded, contributor to an included
aggregate, or unmapped — and an entry with a missing or blank name lands in
none: the excluded and unmapped buckets are exactly the per-item excluded and
unmapped records in input order, the contributing entries of the aggregates
are (up to the grouping permutation) exactly the per-item contributor
records, and for each item exactly one (with a valid name) or none (with a
missing/blank name) of the three records exists. -/
theorem analyze_partition (ex : List ExclusionRule) (mp : List MappingRule)
    (items : List InventoryItem) :
    (analyze ex mp items).excluded = items.filterMap (classifyExcluded ex)
    ∧ (analyze ex mp items).unmapped = items.filterMap (classifyUnmapped ex mp)
    ∧ List.Perm (flatEntries (analyze ex mp items).included)
        (items.filterMap (classifyContrib ex mp))
    ∧ (∀ item : InventoryItem, (entryName? item).isSome →
        ExactlyOne (classifyExcluded ex item).isSome
          (classifyContrib ex mp item).isSome
          (classifyUnmapped ex mp item).isSome)
    ∧ (∀ item : InventoryItem, entryName? item = none →
        classifyExcluded ex item = none ∧ classifyContrib ex mp item = none
          ∧ classifyUnmapped ex mp item = none) := by
  obtain ⟨he, hu, hf⟩ := analyze_loop ex mp items ⟨[], [], []⟩
  refine ⟨by simpa [analyze] using he, by simpa [analyze] using hu,
    by simpa [analyze, flatEntries] using hf, ?_, ?_⟩
  · intro item hn
    rcases h : entryName? item with _ | n
    · rw [h] at hn; simp at hn
    · rcases hse : shouldExclude ex n with _ | r
      · rcases hfm : findMapping mp n with _ | m
        · exact Or.inr (Or.inr (by
            simp [classifyExcluded, classifyContrib, classifyUnmapped, h, hse, hfm]))
        · exact Or.inr (Or.inl (by
            simp [classifyExcluded, classifyContrib, classifyUnmapped, h, hse, hfm]))
      · exact Or.inl (by
          simp [classifyExcluded, classifyContrib, classifyUnmapped, h, hse])
  · intro item hn
    simp [classifyExcluded, classifyContrib, classifyUnmapped, hn]

/-! ## Exclusion ordering (C2) -/

theorem exclusionLoop_fst (name : String) (rules : List ExclusionRule) :
    (exclusionLoop name rules).1 = rules.find? (fun r => exclusionMatches r name) := by
  induction rules with
  | nil => rfl
  | cons r rest ih =>
    rcases h : exclusionMatchW r name with ⟨m, w⟩
    rcases m with _ | _
    · simpa [exclusionLoop, h, List.find?_cons, exclusionMatches] using ih
    · simp [exclusionLoop, h, List.find?_cons, exclusionMatches]

/-- **C2.** Exclusion rules are evaluated in stored order with the earliest
matching rule deciding the outcome — `shouldExclude` returns precisely the
first rule of the stored list that matches the trimmed name — and an entry
matched by an exclusion rule is recorded with that rule's category and
reason and is never tested against the mapping rules (the step's result is
the same for any two mapping-rule lists). -/
theorem exclusion_first_match_wins (ex : List ExclusionRule) (name : String)
    (mp mp' : List MappingRule) (acc : AnalyzeResults) (item : InventoryItem) :
    shouldExclude ex name = ex.find? (fun r => exclusionMatches r (jsTrim name))
    ∧ (∀ (raw : String) (r : ExclusionRule), item.name = some raw → jsTrim raw ≠ "" →
        shouldExclude ex (jsTrim raw) = some r →
        analyzeStep ex mp acc item
            = { acc with excluded := acc.excluded ++ [⟨jsTrim raw, r.category, r.reason⟩] }
          ∧ analyzeStep ex mp acc item = analyzeStep ex mp' acc item) := by
  refine ⟨exclusionLoop_fst (jsTrim name) ex, ?_⟩
  intro raw r hraw ht hse
  constructor <;> simp [analyzeStep, hraw, ht, hse]

/-- Witness for C2: two exclusion rules (`contains "chrome"` stored first,
`exact "google chrome"` stored second) both match `" Google Chrome "`; the
result is the first rule, and the step does not depend on the mapping rules. -/
theorem exclusion_first_match_wins_witness :
    shouldExclude
        [⟨"contains", "chrome", "Browsers", "first"⟩,
         ⟨"exact", "google chrome", "Apps", "second"⟩] " Google Chrome "
      = some ⟨"contains", "chrome", "Browsers", "first"⟩
    ∧ analyzeStep
        [⟨"contains", "chrome", "Browsers", "first"⟩,
         ⟨"exact", "google chrome", "Apps", "second"⟩] []
        ⟨[], [], []⟩ ⟨some " Google Chrome ", "Google", .num 4⟩
      = analyzeStep
          [⟨"contains", "chrome", "Browsers", "first"⟩,
           ⟨"exact", "google chrome", "Apps", "second"⟩]
          [⟨"exact", "google chrome", "Google Chrome", "", "", ""⟩]
          ⟨[], [], []⟩ ⟨some " Google Chrome ", "Google", .num 4⟩ := by
  have h := exclusion_first_match_wins
    [⟨"contains", "chrome", "Browsers", "first"⟩,
     ⟨"exact", "google chrome", "Apps", "second"⟩] " Google Chrome "
    [] [⟨"exact", "google chrome", "Google Chrome", "", "", ""⟩]
    ⟨[], [], []⟩ ⟨some " Google Chrome ", "Google", .num 4⟩
  exact ⟨h.1.trans (by decide),
    (h.2 " Google Chrome " ⟨"contains", "chrome", "Browsers", "first"⟩ rfl
      (by decide) (by decide)).2⟩

/-! ## Aggregate seeding (C3) -/

theorem metaOf_addToAggregates (m : MappingRule) (e : OrigEntry)
    (aggs : List Aggregate) :
    (addToAggregates m e aggs).map metaOf
      = if m.canonical_name ∈ aggs.map Aggregate.canonicalName
        then aggs.map metaOf
        else aggs.map metaOf ++ [seedMetaOf m] := by
  induction aggs with
  | nil => simp [addToAggregates, metaOf, seedMetaOf]
  | cons a rest ih =>
    by_cases h : a.canonicalName = m.canonical_name
    · simp [addToAggregates, h, metaOf]
    · have h' : ¬ m.canonical_name = a.canonicalName := fun hh => h hh.symm
      by_cases hmem : m.canonical_name ∈ rest.map Aggregate.canonicalName
      · simp [addToAggregates, h, ih, hmem, h', metaOf]
      · simp [addToAggregates, h, ih, hmem, h', metaOf]

/-- **C3.** Processing one more entry never changes the canonical name,
category, deployment type or description of any existing aggregate
(first-write-wins by entry-processing order); when the entry creates a new
aggregate through a matching mapping rule, the aggregate is seeded with that
rule's canonical name, category (default `"Uncategorized"` when empty),
deployment type (default `"Desktop"`) and description (default empty). -/
theorem aggregate_seeding_first_write_wins (ex : List ExclusionRule)
    (mp : List MappingRule) (items : List InventoryItem) (item : InventoryItem) :
    (analyze ex mp (items ++ [item])).included.map metaOf
        = (analyze ex mp items).included.map metaOf
    ∨ (∃ m : MappingRule,
        (∃ raw : String, item.name = some raw ∧ jsTrim raw ≠ ""
          ∧ shouldExclude ex (jsTrim raw) = none ∧ findMapping mp (jsTrim raw) = some m)
        ∧ m.canonical_name ∉ (analyze ex mp items).included.map Aggregate.canonicalName
        ∧ (analyze ex mp (items ++ [item])).included.map metaOf
            = (analyze ex mp items).included.map metaOf ++ [seedMetaOf m]) := by
  have hstep : analyze ex mp (items ++ [item])
      = analyzeStep ex mp (analyze ex mp items) item := by
    simp [analyze, List.foldl_append]
  rw [hstep]
  set acc := analyze ex mp items with hacc
  rcases hnm : item.name with _ | raw
  · exact Or.inl (by simp [analyzeStep, hnm])
  · by_cases ht : jsTrim raw = ""
    · exact Or.inl (by simp [analyzeStep, hnm, ht])
    · rcases hse : shouldExclude ex (jsTrim raw) with _ | r
      · rcases hfm : findMapping mp (jsTrim raw) with _ | m
        · exact Or.inl (by simp [analyzeStep, hnm, ht, hse, hfm])
        · by_cases hmem : m.canonical_name ∈ acc.included.map Aggregate.canonicalName
          · refine Or.inl ?_
            simp only [analyzeStep, hnm, if_neg ht, hse, hfm]
            rw [metaOf_addToAggregates, if_pos hmem]
          · refine Or.inr ⟨m, ⟨raw, rfl, ht, hse, hfm⟩, hmem, ?_⟩
            simp only [analyzeStep, hnm, if_neg ht, hse, hfm]
            rw [metaOf_addToAggregates, if_neg hmem]
      · exact Or.inl (by simp [analyzeStep, hnm, ht, hse])

/-- Witness for C1: on a concrete run (one exclusion rule, one mapping rule,
four items — one excludable, one mappable, one unknown, one blank) the three
buckets are exactly the classified records, the valid-named item is in
exactly one bucket, and the blank item is in none. -/
theorem analyze_partition_witness :
    (entryName? ⟨some "AMS360 Client", "V", .num 2⟩).isSome
    ∧ entryName? ⟨some "   ", "V", .num 2⟩ = none
    ∧ ExactlyOne
        (classifyExcluded [⟨"contains", "update", "Updates", "u"⟩]
          ⟨some "AMS360 Client", "V", .num 2⟩).isSome
        (classifyContrib [⟨"contains", "update", "Updates", "u"⟩]
          [⟨"startswith", "AMS360", "AMS360", "Insurance", "Desktop", ""⟩]
          ⟨some "AMS360 Client", "V", .num 2⟩).isSome
        (classifyUnmapped [⟨"contains", "update", "Updates", "u"⟩]
          [⟨"startswith", "AMS360", "AMS360", "Insurance", "Desktop", ""⟩]
          ⟨some "AMS360 Client", "V", .num 2⟩).isSome
    ∧ classifyExcluded [⟨"contains", "update", "Updates", "u"⟩]
        ⟨some "   ", "V", .num 2⟩ = none := by
  have h := analyze_partition [⟨"contains", "update", "Updates", "u"⟩]
    [⟨"startswith", "AMS360", "AMS360", "Insurance", "Desktop", ""⟩]
    [⟨some "AMS360 Client", "V", .num 2⟩, ⟨some "   ", "V", .num 2⟩]
  exact ⟨by decide, by decide,
    h.2.2.2.1 ⟨some "AMS360 Client", "V", .num 2⟩ (by decide),
    (h.2.2.2.2 ⟨some "   ", "V", .num 2⟩ (by decide)).1⟩

/-! ## Case-insensitivity of the pattern matcher (C4) -/

/-- **C4.** Pattern matching is case-insensitive for every pattern type: for
`exact`, `contains`, `startswith` and `endswith`, changing the case of the
name or of the pattern (i.e. replacing either by any string with the same
lower-casing) does not change the match result, in both the exclusion and
the mapping matcher; for `regex`, changing the case of the name does not
change the result of the case-insensitively compiled pattern. -/
theorem pattern_match_case_insensitive (n n' p p' : String)
    (hn : jsToLower n = jsToLower n') (hp : jsToLower p = jsToLower p') :
    (∀ ty cat rsn, ty ∈ ["exact", "contains", "startswith", "endswith"] →
        exclusionMatches ⟨ty, p, cat, rsn⟩ n = exclusionMatches ⟨ty, p', cat, rsn⟩ n')
    ∧ (∀ cat rsn, exclusionMatches ⟨"regex", p, cat, rsn⟩ n
        = exclusionMatches ⟨"regex", p, cat, rsn⟩ n')
    ∧ (∀ ty cn c d de, ty ∈ ["exact", "contains", "startswith"] →
        mappingMatches ⟨ty, p, cn, c, d, de⟩ n = mappingMatches ⟨ty, p', cn, c, d, de⟩ n')
    ∧ (∀ cn c d de, mappingMatches ⟨"regex", p, cn, c, d, de⟩ n
        = mappingMatches ⟨"regex", p, cn, c, d, de⟩ n') := by
  refine ⟨?_, ?_, ?_, ?_⟩
  · intro ty cat rsn hty
    fin_cases hty <;>
      simp [exclusionMatches, exclusionMatchW, hn, hp]
  · intro cat rsn
    cases hc : compileRegexI p <;>
      simp [exclusionMatches, exclusionMatchW, hc, reTest, hn]
  · intro ty cn c d de hty
    fin_cases hty <;>
      simp [mappingMatches, mappingMatchW, hn, hp]
  · intro cn c d de
    cases hc : compileRegexI p <;>
      simp [mappingMatches, mappingMatchW, hc, reTest, hn]

/-- Witness for C4: `"GOOGLE CHROME"`, `"Google Chrome"` and
`"google chrome"` all match a `startswith` rule on pattern
`"Google Chrome"`, and the match results agree across the case variants. -/
theorem pattern_match_case_insensitive_witness :
    jsToLower "GOOGLE CHROME" = jsToLower "google chrome"
    ∧ exclusionMatches ⟨"startswith", "Google Chrome", "c", "r"⟩ "GOOGLE CHROME"
        = exclusionMatches ⟨"startswith", "GOOGLE chrome", "c", "r"⟩ "google chrome"
    ∧ exclusionMatches ⟨"startswith", "Google Chrome", "c", "r"⟩ "GOOGLE CHROME" = true
    ∧ exclusionMatches ⟨"startswith", "Google Chrome", "c", "r"⟩ "Google Chrome" = true
    ∧ exclusionMatches ⟨"startswith", "Google Chrome", "c", "r"⟩ "google chrome" = true := by
  have h := pattern_match_case_insensitive "GOOGLE CHROME" "google chrome"
    "Google Chrome" "GOOGLE chrome" (by decide) (by decide)
  exact ⟨by decide, h.1 "startswith" "c" "r" (by simp), by decide, by decide, by decide⟩

/-! ## Invalid regex patterns fail closed (C5) -/

/-- **C5.** A `regex` rule whose pattern does not compile never matches any
name (the predicate fails closed), the `Invalid regex pattern` warning is
emitted, and evaluation continues with the remaining rules — in both
`shouldExclude` and `findMapping` the result is exactly the result over the
remaining rules, with the warning prepended; the run is never aborted. -/
theorem invalid_regex_fails_closed (p : String) (hp : compileRegexI p = none)
    (cat rsn cn c d de name : String)
    (exRest : List ExclusionRule) (mpRest : List MappingRule) :
    exclusionMatchW ⟨"regex", p, cat, rsn⟩ name = (false, [invalidRegexWarning p])
    ∧ shouldExcludeW (⟨"regex", p, cat, rsn⟩ :: exRest) name
        = ((shouldExcludeW exRest name).1,
           invalidRegexWarning p :: (shouldExcludeW exRest name).2)
    ∧ findMappingW (⟨"regex", p, cn, c, d, de⟩ :: mpRest) name
        = ((findMappingW mpRest name).1,
           invalidRegexWarning p :: (findMappingW mpRest name).2) := by
  refine ⟨by simp [exclusionMatchW, hp], ?_, ?_⟩
  · show exclusionLoop (jsTrim name) _ = _
    simp [exclusionLoop, exclusionMatchW, hp, shouldExcludeW]
  · show mappingLoop (jsTrim name) _ = _
    simp [mappingLoop, mappingMatchW, hp, findMappingW]

/-- Witness for C5: the pattern `"("` is invalid; the rule carrying it never
matches, the warning is reported, and the later `contains` rule still
decides the result. -/
theorem invalid_regex_fails_closed_witness :
    compileRegexI "(" = none
    ∧ exclusionMatchW ⟨"regex", "(", "c", "r"⟩ "Adobe Reader"
        = (false, [invalidRegexWarning "("])
    ∧ shouldExcludeW
        [⟨"regex", "(", "c", "r"⟩, ⟨"contains", "reader", "Viewers", "v"⟩]
        "Adobe Reader"
      = (some ⟨"contains", "reader", "Viewers", "v"⟩, [invalidRegexWarning "("]) := by
  have h := invalid_regex_fails_closed "(" (by decide) "c" "r" "x" "y" "z" "w"
    "Adobe Reader" [⟨"contains", "reader", "Viewers", "v"⟩] []
  refine ⟨by decide, h.1, h.2.1.trans (by decide)⟩

/-! ## Unrecognised pattern types never match (C9) -/

/-- **C9.** A rule whose `patternType` is outside the set handled by the
evaluating stage is treated as never matching: a mapping rule with
`patternType` `"endswith"` (absent from `findMapping`'s cases) matches no
name, and any unrecognised `patternType` yields non-match (rather than an
error) in both `shouldExclude` and `findMapping`. -/
theorem unrecognized_pattern_type_never_matches (ty p cat rsn cn c d de n : String) :
    (ty ∉ ["exact", "contains", "startswith", "endswith", "regex"] →
      exclusionMatches ⟨ty, p, cat, rsn⟩ n = false)
    ∧ (ty ∉ ["exact", "contains", "startswith", "regex"] →
      mappingMatches ⟨ty, p, cn, c, d, de⟩ n = false)
    ∧ mappingMatches ⟨"endswith", p, cn, c, d, de⟩ n = false := by
  refine ⟨?_, ?_, ?_⟩
  · intro h
    simp only [List.mem_cons, List.not_mem_nil, or_false, not_or] at h
    obtain ⟨h1, h2, h3, h4, h5⟩ := h
    simp [exclusionMatches, exclusionMatchW, h1, h2, h3, h4, h5]
  · intro h
    simp only [List.mem_cons, List.not_mem_nil, or_false, not_or] at h
    obtain ⟨h1, h2, h3, h4⟩ := h
    simp [mappingMatches, mappingMatchW, h1, h2, h3, h4]
  · simp [mappingMatches, mappingMatchW]

/-- Witness for C9: the made-up pattern type `"fuzzy"` matches nothing in
either stage, and a mapping rule with `"endswith"` matches nothing. -/
theorem unrecognized_pattern_type_never_matches_witness :
    ("fuzzy" : String) ∉ ["exact", "contains", "startswith", "endswith", "regex"]
    ∧ exclusionMatches ⟨"fuzzy", "chrome", "c", "r"⟩ "Google Chrome" = false
    ∧ mappingMatches ⟨"fuzzy", "chrome", "Chrome", "", "", ""⟩ "Google Chrome" = false
    ∧ mappingMatches ⟨"endswith", "chrome", "Chrome", "", "", ""⟩ "Google Chrome" = false := by
  have h := unrecognized_pattern_type_never_matches "fuzzy" "chrome" "c" "r"
    "Chrome" "" "" "" "Google Chrome"
  exact ⟨by decide, h.1 (by decide), h.2.1 (by decide), h.2.2⟩

/-! ## Device counting (C6, C10) -/

theorem totalDevicesOf_eq_sum (entries : List OrigEntry) :
    totalDevicesOf entries
      = (entries.map (fun e => parseIntOr1 e.deviceCount)).sum := by
  suffices h : ∀ (l : List OrigEntry) (a : Int),
      l.foldl (fun sum e => sum + parseIntOr1 e.deviceCount) a
        = a + (l.map (fun e => parseIntOr1 e.deviceCount)).sum by
    simpa [totalDevicesOf] using h entries 0
  intro l
  induction l with
  | nil => simp
  | cons e rest ih => intro a; simp [ih, add_assoc]

/-- Counterexample to C6 as stated: in a concrete run whose single aggregate
has one contributing entry with deviceCount `"0"` (present and numeric), the
code's `totalDevices` is 1, not the claimed sum of deviceCount values
(which is 0) — the `|| 1` fallback also fires on a parsed 0. -/
theorem totalDevices_spec_counterexample :
    ∃ out ∈ includedArray (analyze []
        [⟨"exact", "zoom", "Zoom", "", "", ""⟩]
        [⟨some "Zoom", "Zoom Inc", .str "0"⟩]),
      out.totalDevices
        ≠ (out.originalEntries.map (fun e => specDeviceContribution e.deviceCount)).sum := by
  decide

/-- **C6 (amended).** For every aggregate in the included output,
`originalCount` equals the length of its contributing-entry list, and
`totalDevices` equals the sum over contributing entries of
`parseInt(deviceCount) || 1`: an entry contributes its parsed integer
deviceCount when that parses to a nonzero integer, and exactly 1 when the
deviceCount is missing, non-numeric (e.g. `"abc"`), or parses to 0. -/
theorem includedArray_counts (res : AnalyzeResults) (out : IncludedOut)
    (hout : out ∈ includedArray res) :
    out.originalCount = out.originalEntries.length
    ∧ out.totalDevices
        = (out.originalEntries.map (fun e => parseIntOr1 e.deviceCount)).sum
    ∧ (∀ s, jsParseInt s = none → parseIntOr1 (.str s) = 1)
    ∧ parseIntOr1 .missing = 1 := by
  obtain ⟨a, ha, rfl⟩ := List.mem_map.1 hout
  refine ⟨rfl, ?_, ?_, rfl⟩
  · simpa using totalDevicesOf_eq_sum a.originalEntries
  · intro s hs; simp [parseIntOr1, hs]

/-- Witness for the amended C6: a concrete aggregate with entries whose
deviceCounts are `"abc"` (non-numeric, counts as 1) and `5`. -/
theorem includedArray_counts_witness :
    (⟨"Zoom", "Conferencing", "Desktop", "",
        [⟨"Zoom", "Z", .str "abc"⟩, ⟨"zoom", "Z", .num 5⟩], 2, 6⟩ : IncludedOut)
      ∈ includedArray ⟨[⟨"Zoom", "Conferencing", "Desktop", "",
          [⟨"Zoom", "Z", .str "abc"⟩, ⟨"zoom", "Z", .num 5⟩]⟩], [], []⟩
    ∧ (6 : Int)
        = ([⟨"Zoom", "Z", .str "abc"⟩, ⟨"zoom", "Z", .num 5⟩].map
            (fun e : OrigEntry => parseIntOr1 e.deviceCount)).sum
    ∧ jsParseInt "abc" = none ∧ parseIntOr1 (.str "abc") = 1 := by
  have h := includedArray_counts
    ⟨[⟨"Zoom", "Conferencing", "Desktop", "",
        [⟨"Zoom", "Z", .str "abc"⟩, ⟨"zoom", "Z", .num 5⟩]⟩], [], []⟩
    ⟨"Zoom", "Conferencing", "Desktop", "",
        [⟨"Zoom", "Z", .str "abc"⟩, ⟨"zoom", "Z", .num 5⟩], 2, 6⟩
    (by decide)
  exact ⟨by decide, h.2.1, by decide, h.2.2.1 "abc" (by decide)⟩

/-- **C10.** An entry whose deviceCount is present and parses to the integer
0 contributes 1 (not 0) to its aggregate's `totalDevices`: the `|| 1`
fallback treats a parsed 0 the same as a missing or non-numeric value. -/
theorem deviceCount_zero_contributes_one (s : String) (hs : jsParseInt s = some 0)
    (entries : List OrigEntry) (nm pub : String) :
    parseIntOr1 (.str s) = 1
    ∧ parseIntOr1 (.num 0) = 1
    ∧ totalDevicesOf (entries ++ [⟨nm, pub, .str s⟩]) = totalDevicesOf entries + 1 := by
  refine ⟨by simp [parseIntOr1, hs], by simp [parseIntOr1], ?_⟩
  simp [totalDevicesOf_eq_sum, parseIntOr1, hs]

/-- Witness for C10: deviceCount `"0"` parses to 0 and contributes 1. -/
theorem deviceCount_zero_contributes_one_witness :
    jsParseInt "0" = some 0
    ∧ parseIntOr1 (.str "0") = 1
    ∧ totalDevicesOf [⟨"App", "P", .str "0"⟩] = 1 := by
  have h := deviceCount_zero_contributes_one "0" (by decide) [] "App" "P"
  exact ⟨by decide, h.1, by simpa using h.2.2⟩

/-! ## Disposition enrichment (C7) -/

theorem mapGet_mapSet_self (m : List (String × DispInfo)) (k : String) (v : DispInfo) :
    mapGet (mapSet m k v) k = some v := by
  induction m with
  | nil => simp [mapSet, mapGet]
  | cons p rest ih =>
    by_cases hp : p.1 = k
    · simp [mapSet, hp, mapGet]
    · simpa [mapSet, hp, mapGet, List.find?_cons] using ih

theorem mapGet_mapSet_ne (m : List (String × DispInfo)) (k k' : String)
    (v : DispInfo) (h : k' ≠ k) :
    mapGet (mapSet m k v) k' = mapGet m k' := by
  induction m with
  | nil => simp [mapSet, mapGet, List.find?_cons, Ne.symm h]
  | cons p rest ih =>
    by_cases hp : p.1 = k
    · have hpk : ¬ (p.1 = k') := by
        rw [hp]; exact Ne.symm h
      simp [mapSet, hp, mapGet, List.find?_cons, Ne.symm h, hpk]
    · by_cases hpk : p.1 = k'
      · simp [mapSet, hp, mapGet, List.find?_cons, hpk, h]
      · simpa [mapSet, hp, mapGet, List.find?_cons, hpk] using ih

theorem mapGet_fetchMap_none (name : String) (fetched : Option (List DispRow))
    (h : ∀ rows, fetched = some rows → name ∉ rows.map DispRow.canonical_name) :
    mapGet (fetchMap fetched) name = none := by
  cases fetched with
  | none => rfl
  | some rows =>
    have h' := h rows rfl
    suffices haux : ∀ (rs : List DispRow) (m : List (String × DispInfo)),
        name ∉ rs.map DispRow.canonical_name → mapGet m name = none →
        mapGet (rs.foldl (fun m r => mapSet m r.canonical_name
          { disposition := r.disposition,
            replacementId := r.approved_software_id,
            replacementName := r.replacement_name,
            notes := r.notes }) m) name = none by
      exact haux rows [] h' rfl
    intro rs
    induction rs with
    | nil => intro m _ hm; simpa using hm
    | cons r rest ih =>
      intro m hmem hm
      have hne : name ≠ r.canonical_name := by
        intro hh; exact hmem (by simp [hh])
      have h'' : name ∉ rest.map DispRow.canonical_name := fun hh => hmem (by simp [hh])
      exact ih _ h'' ((mapGet_mapSet_ne m r.canonical_name name _ hne).trans hm)

theorem mapGet_pendingInserts (insertOk : String → Bool) (name : String)
    (names : List String) (m : List (String × DispInfo))
    (hm : mapGet m name = none ∨ mapGet m name = some pendingInfo) :
    mapGet (pendingInserts insertOk names m) name = none
      ∨ mapGet (pendingInserts insertOk names m) name = some pendingInfo := by
  induction names generalizing m with
  | nil => simpa [pendingInserts] using hm
  | cons n rest ih =>
    rw [pendingInserts, List.foldl_cons]
    refine ih _ ?_
    by_cases hok : insertOk n
    · by_cases hn : name = n
      · subst hn
        simp [hok, mapGet_mapSet_self]
      · simpa [hok, mapGet_mapSet_ne m n name _ hn] using hm
    · simpa [hok] using hm

/-- **C7.** After enrichment every returned aggregate carries a disposition:
an aggregate whose canonical name has no pre-existing disposition record (it
is absent from the bulk-fetched rows, and in particular whenever the
disposition store was unavailable and nothing was fetched) comes back with
disposition `"pending"` and null replacement fields (`replacementId`,
`replacementName`, `dispositionNotes` all `null`) — whether or not the
lazily attempted insert of the new pending record succeeds, so per-operation
store failures are absorbed instead of failing the run. -/
theorem disposition_enrichment_defaults (fetched : Option (List DispRow))
    (insertOk : String → Bool) (included : List IncludedOut) (item : EnrichedItem)
    (hmem : item ∈ enrich fetched insertOk included)
    (hnew : ∀ rows, fetched = some rows →
      item.canonicalName ∉ rows.map DispRow.canonical_name) :
    item.disposition = "pending" ∧ item.replacementId = none
    ∧ item.replacementName = none ∧ item.dispositionNotes = none := by
  simp only [enrich] at hmem
  obtain ⟨inc, hinc, rfl⟩ := List.mem_map.1 hmem
  have h0 : mapGet (fetchMap fetched) inc.canonicalName = none :=
    mapGet_fetchMap_none _ fetched (by
      intro rows hrows
      simpa [enrichItem] using hnew rows hrows)
  have h1 := mapGet_pendingInserts insertOk inc.canonicalName
    ((included.map (fun x => x.canonicalName)).filter
      (fun n => (mapGet (fetchMap fetched) n).isNone))
    (fetchMap fetched) (Or.inl h0)
  rcases h1 with h1 | h1 <;>
    simp [enrichItem, h1, jsFieldOrDefault, jsIntOrNull, jsStrOrNull, pendingInfo]

/-- Witness for C7: with the disposition store unavailable (no rows fetched,
all inserts failing) the single aggregate still comes back with disposition
`"pending"` and null replacement fields. -/
theorem disposition_enrichment_defaults_witness :
    (⟨"Zoom", "Conferencing", "Desktop", "", [⟨"Zoom", "Z", .num 3⟩], 1, 3,
        "pending", none, none, none⟩ : EnrichedItem)
      ∈ enrich none (fun _ => false)
          [⟨"Zoom", "Conferencing", "Desktop", "", [⟨"Zoom", "Z", .num 3⟩], 1, 3⟩]
    ∧ (⟨"Zoom", "Conferencing", "Desktop", "", [⟨"Zoom", "Z", .num 3⟩], 1, 3,
        "pending", none, none, none⟩ : EnrichedItem).disposition = "pending"
    ∧ (⟨"Zoom", "Conferencing", "Desktop", "", [⟨"Zoom", "Z", .num 3⟩], 1, 3,
        "pending", none, none, none⟩ : EnrichedItem).replacementId = none := by
  have h := disposition_enrichment_defaults none (fun _ => false)
    [⟨"Zoom", "Conferencing", "Desktop", "", [⟨"Zoom", "Z", .num 3⟩], 1, 3⟩]
    ⟨"Zoom", "Conferencing", "Desktop", "", [⟨"Zoom", "Z", .num 3⟩], 1, 3,
        "pending", none, none, none⟩
    (by decide) (by simp)
  exact ⟨by decide, h.1, h.2.1⟩

/-! ## Sorting of the response (C8) -/

theorem jsInsert_perm (r : α → α → Bool) (x : α) (l : List α) :
    List.Perm (jsInsert r x l) (x :: l) := by
  induction l with
  | nil => simp [jsInsert]
  | cons y ys ih =>
    by_cases h : r y x
    · simpa [jsInsert, h] using ((ih.cons y).trans (List.Perm.swap x y ys))
    · simp [jsInsert, h]

theorem mem_jsInsert (r : α → α → Bool) (x z : α) (l : List α)
    (h : z ∈ jsInsert r x l) : z = x ∨ z ∈ l := by
  have := (jsInsert_perm r x l).mem_iff.1 h
  simpa using this

theorem sortedB_jsInsert (r : α → α → Bool) (P : α → Prop)
    (htot : ∀ a b, P a → P b → r a b = true ∨ r b a = true)
    (htrans : ∀ a b c, P a → P b → P c → r a b = true → r b c = true → r a c = true)
    (x : α) (hx : P x) :
    ∀ l : List α, (∀ y ∈ l, P y) → SortedB r l → SortedB r (jsInsert r x l) := by
  intro l
  induction l with
  | nil => intro _ _; simp [jsInsert, SortedB]
  | cons y ys ih =>
    intro hl hs
    obtain ⟨hy, hys⟩ :
        (∀ z ∈ ys, r y z = true) ∧ ys.Pairwise (fun a b => r a b = true) :=
      List.pairwise_cons.1 hs
    by_cases hryx : r y x
    · show SortedB r (if r y x then y :: jsInsert r x ys else x :: y :: ys)
      rw [if_pos hryx]
      refine List.pairwise_cons.2 ⟨?_, ?_⟩
      · intro z hz
        rcases mem_jsInsert r x z ys hz with rfl | hz'
        · exact hryx
        · exact hy z hz'
      · exact ih (fun z hz => hl z (List.mem_cons_of_mem y hz)) hys
    · show SortedB r (if r y x then y :: jsInsert r x ys else x :: y :: ys)
      rw [if_neg hryx]
      have hPy : P y := hl y (List.mem_cons_self y ys)
      have hxy : r x y = true := by
        rcases htot x y hx hPy with h | h
        · exact h
        · exact absurd h hryx
      refine List.pairwise_cons.2 ⟨?_, List.pairwise_cons.2 ⟨hy, hys⟩⟩
      intro z hz
      rcases List.mem_cons.1 hz with rfl | hz'
      · exact hxy
      · exact htrans x y z hx hPy (hl z (List.mem_cons_of_mem y hz')) hxy (hy z hz')

theorem foldl_jsInsert_perm (r : α → α → Bool) :
    ∀ (l acc : List α),
      List.Perm (l.foldl (fun a x => jsInsert r x a) acc) (acc ++ l) := by
  intro l
  induction l with
  | nil => intro acc; simp
  | cons x xs ih =>
    intro acc
    refine (ih (jsInsert r x acc)).trans ?_
    refine (List.Perm.append_right xs ((jsInsert_perm r x acc))).trans ?_
    simpa using List.perm_middle.symm

theorem jsSort_perm (r : α → α → Bool) (l : List α) :
    List.Perm (jsSort r l) l := by
  simpa [jsSort] using foldl_jsInsert_perm r l []

theorem sortedB_jsSort (r : α → α → Bool) (P : α → Prop)
    (htot : ∀ a b, P a → P b → r a b = true ∨ r b a = true)
    (htrans : ∀ a b c, P a → P b → P c → r a b = true → r b c = true → r a c = true)
    (l : List α) (hl : ∀ x ∈ l, P x) : SortedB r (jsSort r l) := by
  suffices haux : ∀ (rest acc : List α), (∀ x ∈ rest, P x) → (∀ x ∈ acc, P x) →
      SortedB r acc → SortedB r (rest.foldl (fun a x => jsInsert r x a) acc) by
    exact haux l [] hl (by simp) (by simp [SortedB])
  intro rest
  induction rest with
  | nil => intro acc _ _ hs; simpa using hs
  | cons x xs ih =>
    intro acc hrest hacc hs
    rw [List.foldl_cons]
    have hPx : P x := hrest x (List.mem_cons_self x xs)
    refine ih _ (fun z hz => hrest z (List.mem_cons_of_mem x hz)) ?_ ?_
    · intro z hz
      rcases mem_jsInsert r x z acc hz with rfl | hz'
      · exact hPx
      · exact hacc z hz'
    · exact sortedB_jsInsert r P htot htrans x hPx acc hacc hs

theorem lexLe_total : ∀ a b : List Char, lexLe a b = true ∨ lexLe b a = true := by
  intro a
  induction a with
  | nil => intro b; left; rfl
  | cons x xs ih =>
    intro b
    cases b with
    | nil => right; rfl
    | cons y ys =>
      by_cases hxy : x.toNat < y.toNat
      · left; simp [lexLe, hxy]
      · by_cases hyx : y.toNat < x.toNat
        · right; simp [lexLe, hyx]
        · rcases ih ys with h | h
          · left; simp [lexLe, hxy, hyx, h]
          · right; simp [lexLe, hxy, hyx, h]

theorem lexLe_trans : ∀ a b c : List Char,
    lexLe a b = true → lexLe b c = true → lexLe a c = true := by
  intro a
  induction a with
  | nil => intro b c _ _; rfl
  | cons x xs ih =>
    intro b c hab hbc
    cases b with
    | nil => simp [lexLe] at hab
    | cons y ys =>
      cases c with
      | nil => simp [lexLe] at hbc
      | cons z zs =>
        simp only [lexLe] at hab hbc ⊢
        by_cases hxy : x.toNat < y.toNat
        · by_cases hyz : y.toNat < z.toNat
          · have : x.toNat < z.toNat := hxy.trans hyz
            simp [this]
          · by_cases hzy : z.toNat < y.toNat
            · simp [hyz, hzy] at hbc
            · have hyzeq : y.toNat = z.toNat := le_antisymm (not_lt.1 hzy) (not_lt.1 hyz)
              have : x.toNat < z.toNat := hyzeq ▸ hxy
              simp [this]
        · by_cases hyx : y.toNat < x.toNat
          · simp [hxy, hyx] at hab
          · have hxyeq : x.toNat = y.toNat := le_antisymm (not_lt.1 hyx) (not_lt.1 hxy)
            by_cases hyz : y.toNat < z.toNat
            · have : x.toNat < z.toNat := hxyeq ▸ hyz
              simp [this]
            · by_cases hzy : z.toNat < y.toNat
              · simp [hyz, hzy] at hbc
              · have hxz : ¬ x.toNat < z.toNat := by omega
                have hzx : ¬ z.toNat < x.toNat := by omega
                simp only [hxy, hyx, if_neg hxz, if_neg hzx, if_false] at hab ⊢
                simp only [hyz, hzy, if_false] at hbc
                exact ih ys zs (by simpa using hab) (by simpa using hbc)

theorem unmappedBefore_of_keys (a b : OrigEntry) (x y : Int)
    (ha : devKey a.deviceCount = some x) (hb : devKey b.deviceCount = some y) :
    unmappedBefore a b = decide (y ≤ x) := by
  simp [unmappedBefore, ha, hb]

/-- **C8.** In the response, the included list is sorted by `canonicalName`
ascending (string comparison) and is a permutation of the enriched
aggregates, and — whenever the unmapped entries carry numeric (or missing)
device counts, the only case in which the comparator is numeric — the
unmapped list is sorted by `deviceCount` descending with a missing
`deviceCount` treated as 0, and is a permutation of the unmapped bucket. -/
theorem response_sorted (ex : List ExclusionRule) (mp : List MappingRule)
    (fetched : Option (List DispRow)) (insertOk : String → Bool)
    (items : List InventoryItem)
    (hnum : ∀ e ∈ (analyze ex mp items).unmapped, (devKey e.deviceCount).isSome) :
    SortedB includedBefore (apiAnalyzeResponse ex mp fetched insertOk items).included
    ∧ List.Perm (apiAnalyzeResponse ex mp fetched insertOk items).included
        (enrich fetched insertOk (includedArray (analyze ex mp items)))
    ∧ (apiAnalyzeResponse ex mp fetched insertOk items).unmapped.Pairwise
        (fun a b => (devKey b.deviceCount).getD 0 ≤ (devKey a.deviceCount).getD 0)
    ∧ List.Perm (apiAnalyzeResponse ex mp fetched insertOk items).unmapped
        (analyze ex mp items).unmapped := by
  have hPu : ∀ a b : OrigEntry, (devKey a.deviceCount).isSome = true →
      (devKey b.deviceCount).isSome = true →
      unmappedBefore a b = true ∨ unmappedBefore b a = true := by
    intro a b ha hb
    obtain ⟨x, hx⟩ := Option.isSome_iff_exists.1 ha
    obtain ⟨y, hy⟩ := Option.isSome_iff_exists.1 hb
    rw [unmappedBefore_of_keys a b x y hx hy, unmappedBefore_of_keys b a y x hy hx]
    simpa using le_total y x
  have hTu : ∀ a b c : OrigEntry, (devKey a.deviceCount).isSome = true →
      (devKey b.deviceCount).isSome = true → (devKey c.deviceCount).isSome = true →
      unmappedBefore a b = true → unmappedBefore b c = true →
      unmappedBefore a c = true := by
    intro a b c ha hb hc hab hbc
    obtain ⟨x, hx⟩ := Option.isSome_iff_exists.1 ha
    obtain ⟨y, hy⟩ := Option.isSome_iff_exists.1 hb
    obtain ⟨z, hz⟩ := Option.isSome_iff_exists.1 hc
    rw [unmappedBefore_of_keys a b x y hx hy] at hab
    rw [unmappedBefore_of_keys b c y z hy hz] at hbc
    rw [unmappedBefore_of_keys a c x z hx hz]
    simp only [decide_eq_true_eq] at hab hbc ⊢
    exact hbc.trans hab
  refine ⟨?_, ?_, ?_, ?_⟩
  · show SortedB includedBefore (jsSort includedBefore
      (enrich fetched insertOk (includedArray (analyze ex mp items))))
    refine sortedB_jsSort includedBefore (fun _ => True) ?_ ?_ _ (fun _ _ => trivial)
    · intro a b _ _
      exact lexLe_total a.canonicalName.data b.canonicalName.data
    · intro a b c _ _ _ hab hbc
      exact lexLe_trans a.canonicalName.data b.canonicalName.data c.canonicalName.data
        hab hbc
  · exact jsSort_perm includedBefore
      (enrich fetched insertOk (includedArray (analyze ex mp items)))
  · have hsort := sortedB_jsSort unmappedBefore
      (fun e => (devKey e.deviceCount).isSome = true) hPu hTu
      (analyze ex mp items).unmapped hnum
    have hperm := jsSort_perm unmappedBefore (analyze ex mp items).unmapped
    show (jsSort unmappedBefore (analyze ex mp items).unmapped).Pairwise
      (fun a b => (devKey b.deviceCount).getD 0 ≤ (devKey a.deviceCount).getD 0)
    refine List.Pairwise.imp_of_mem ?_ hsort
    intro a b ha hb hab
    obtain ⟨x, hx⟩ := Option.isSome_iff_exists.1 (hnum a (hperm.subset ha))
    obtain ⟨y, hy⟩ := Option.isSome_iff_exists.1 (hnum b (hperm.subset hb))
    rw [unmappedBefore_of_keys a b x y hx hy] at hab
    simp only [decide_eq_true_eq] at hab
    simpa [hx, hy] using hab
  · exact jsSort_perm unmappedBefore (analyze ex mp items).unmapped

/-- Witness for C8: a concrete run with one mapped name and three unmapped
entries with device counts 2, missing and 5 — the response's unmapped list
comes out in descending key order (5, 2, missing-as-0) and the included list
is sorted by canonical name. -/
theorem response_sorted_witness :
    ((analyze [] [⟨"contains", "chrome", "Google Chrome", "", "", ""⟩]
        [⟨some "B App", "p", .num 2⟩, ⟨some "Chrome", "g", .num 9⟩,
         ⟨some "A App", "q", .missing⟩, ⟨some "C App", "r", .num 5⟩]).unmapped.all
      (fun e => (devKey e.deviceCount).isSome)) = true
    ∧ (apiAnalyzeResponse [] [⟨"contains", "chrome", "Google Chrome", "", "", ""⟩]
        none (fun _ => false)
        [⟨some "B App", "p", .num 2⟩, ⟨some "Chrome", "g", .num 9⟩,
         ⟨some "A App", "q", .missing⟩, ⟨some "C App", "r", .num 5⟩]).unmapped.Pairwise
        (fun a b => (devKey b.deviceCount).getD 0 ≤ (devKey a.deviceCount).getD 0)
    ∧ SortedB includedBefore
        (apiAnalyzeResponse [] [⟨"contains", "chrome", "Google Chrome", "", "", ""⟩]
          none (fun _ => false)
          [⟨some "B App", "p", .num 2⟩, ⟨some "Chrome", "g", .num 9⟩,
           ⟨some "A App", "q", .missing⟩, ⟨some "C App", "r", .num 5⟩]).included := by
  have h := response_sorted [] [⟨"contains", "chrome", "Google Chrome", "", "", ""⟩]
    none (fun _ => false)
    [⟨some "B App", "p", .num 2⟩, ⟨some "Chrome", "g", .num 9⟩,
     ⟨some "A App", "q", .missing⟩, ⟨some "C App", "r", .num 5⟩]
    (by decide)
  exact ⟨by decide, h.2.2.1, h.1⟩
